import Mathlib

/-!
Verification development for the cheesechaser repository.

The definitions below are shallow embeddings of the Python source:

* `cheesechaser/datapool/base.py` — the archive Locator
  (`id_modulo_cut`, `IncrementIDDataPool._request_possible_archives`),
  the shard-index cache and resolver (`HfBasedDataPool._make_tar_info`,
  `HfBasedDataPool._request_resource_by_id`), the materializer
  (`HfBasedDataPool.mock_resource`) and the batch orchestrator
  (`DataPool.batch_download_to_directory`).
* `cheesechaser/pipe/base.py` — the streaming pipeline
  (`PipeSession.__iter__`, `PipeSession._count_update`, `PipeSession.next`,
  `Pipe.batch_retrieve._func`).

Strings are handled through their character lists; machine integers of the
source are arbitrary-precision in Python, so `Nat` is used directly.
-/

/-! ## Locator: `id_modulo_cut` and `IncrementIDDataPool._request_possible_archives` -/

/-- Embedding of Python `str(n)` for a single decimal digit `n` (`n ≤ 9`;
larger inputs are clamped to `'9'`, but every call site passes a digit). -/
def digitChar (n : Nat) : Char :=
  match n with
  | 0 => '0' | 1 => '1' | 2 => '2' | 3 => '3' | 4 => '4'
  | 5 => '5' | 6 => '6' | 7 => '7' | 8 => '8' | _ => '9'

/-- Fuel-driven embedding of Python `str(n)` for a natural number: most
significant digit first.  The fuel argument only bounds the recursion depth;
`natStr` supplies enough fuel for any input. -/
def natStrAux : Nat → Nat → List Char
  | 0, _ => []
  | f + 1, n =>
    if n < 10 then [digitChar n]
    else natStrAux f (n / 10) ++ [digitChar (n % 10)]

/-- Embedding of Python `str(n)` (decimal representation, no sign). -/
def natStr (n : Nat) : List Char :=
  natStrAux (n + 1) n

/-- Zero padding used by `_request_possible_archives`:
`'0' * (base_level - len(modulo_str)) + modulo_str`.  When the string is
already long enough the padding is empty (truncated subtraction). -/
def zeroPad (width : Nat) (s : List Char) : List Char :=
  List.replicate (width - s.length) '0' ++ s

/-- Helper for `id_modulo_cut`: Python reverses the string and collects
`id_text[i:i+3][::-1]` for `i = 0, 3, 6, ...`.  `chunkRev` consumes the
already-reversed character list and produces those un-reversed 3-chunks in
collection order. -/
def chunkRev : List Char → List (List Char)
  | [] => []
  | [a] => [[a]]
  | [a, b] => [[b, a]]
  | a :: b :: c :: rest => [c, b, a] :: chunkRev rest

/-- Embedding of `id_modulo_cut` (datapool/base.py): cut an ID string into
segments of three characters each, starting from the end, returning the
segments in most-significant-first order (Python's `data[::-1]`). -/
def id_modulo_cut (s : List Char) : List (List Char) :=
  (chunkRev s.reverse).reverse

/-- Embedding of the Python assignment
`modulo_segments[-1] = f'0{modulo_segments[-1]}'`: prefix the literal `'0'`
onto the last segment.  On the empty list Python would raise `IndexError`;
the call site always passes a non-empty list. -/
def padLastSegment : List (List Char) → List (List Char)
  | [] => []
  | [x] => ['0' :: x]
  | x :: xs => x :: padLastSegment xs

/-- Embedding of `'/'.join(segments)`. -/
def joinSlash : List (List Char) → List Char
  | [] => []
  | [x] => x
  | x :: xs => x ++ '/' :: joinSlash xs

/-- The `base_level` constructor argument of `IncrementIDDataPool`:
`Union[int, List[int]]`. -/
def baseLevelsOf : Nat ⊕ List Nat → List Nat
  | .inl n => [n]
  | .inr l => l

/-- Embedding of `IncrementIDDataPool._request_possible_archives`
(datapool/base.py lines 497-522): for each base level `L` compute
`modulo = resource_id % 10 ** L`, zero-pad its decimal string to width `L`,
cut it with `id_modulo_cut`, prefix `'0'` to the final segment and build
`f'{base_dir}/{"/".join(modulo_segments)}.tar'`. -/
def requestPossibleArchives (baseDir : String) (baseLevel : Nat ⊕ List Nat)
    (resourceId : Nat) : List String :=
  (baseLevelsOf baseLevel).map fun L =>
    let modulo := resourceId % 10 ^ L
    let moduloStr := zeroPad L (natStr modulo)
    let moduloSegments := padLastSegment (id_modulo_cut moduloStr)
    String.mk (baseDir.data ++ '/' :: joinSlash moduloSegments ++ ".tar".data)

/-! ### The decode procedure of the spec's round-trip law (spec §8)

These definitions follow the spec's words, not the source: they exist to be
compared with `requestPossibleArchives`. -/

/-- Split a character list on `'/'` (Python `s.split('/')` semantics:
the result is never empty and keeps empty components). -/
def splitSlash : List Char → List (List Char)
  | [] => [[]]
  | c :: rest =>
    let r := splitSlash rest
    if c = '/' then [] :: r
    else
      match r with
      | [] => [[c]]
      | s :: ss => (c :: s) :: ss

/-- Strip the `.tar` suffix (four characters) from a path. -/
def stripTarSuffix (l : List Char) : List Char :=
  l.take (l.length - 4)

/-- Strip one injected leading `'0'`, when present. -/
def stripLeadZero : List Char → List Char
  | '0' :: rest => rest
  | l => l

/-- Apply `stripLeadZero` to the final segment only. -/
def stripLastZero : List (List Char) → List (List Char)
  | [] => []
  | [x] => [stripLeadZero x]
  | x :: xs => x :: stripLastZero xs

/-- Decimal-digit test for a character. -/
def isDigitB (c : Char) : Bool :=
  ('0' ≤ c) && (c ≤ '9')

/-- Embedding of Python `int(s)` restricted to unsigned decimal strings:
`none` models the `ValueError` raised on a string that is not a non-empty
run of digits. -/
def parseNatQ (l : List Char) : Option Nat :=
  if l ≠ [] ∧ l.all isDigitB then
    some (l.foldl (fun a c => a * 10 + (c.toNat - 48)) 0)
  else none

/-- The decode procedure exactly as the spec's round-trip law words it:
strip `.tar`, split on `'/'`, strip the injected leading `'0'` from the
final segment, concatenate all segments, parse as an integer.  (Taken from
the spec so it can be compared with the Locator; note it concatenates every
segment, including the `base_dir` components.) -/
def decodeLiteral (path : String) : Option Nat :=
  parseNatQ ((stripLastZero (splitSlash (stripTarSuffix path.data))).flatten)

/-- The decode procedure applied to the shard path relative to `base_dir`
(the segments contributed by `base_dir` are dropped before concatenation).
This is the amended decode under which the round-trip law holds. -/
def decodeRelDigits (baseDir : String) (path : String) : List Char :=
  (stripLastZero (splitSlash (stripTarSuffix
    (path.data.drop (baseDir.data.length + 1))))).flatten

/-! ## Resolver: `HfBasedDataPool._make_tar_info` and
`HfBasedDataPool._request_resource_by_id` -/

/-- Errors raised by the remote listing `hf_tar_list_files`:
`EntryNotFoundError`, `RepositoryNotFoundError` (both caught by the
resolver), or any other transport error (propagated). -/
inductive LErr where
  | entryNotFound
  | repoNotFound
  | other (msg : String)
deriving DecidableEq

/-- Errors surfaced by `_request_resource_by_id`: its own
`ResourceNotFoundError`, or a propagated transport error. -/
inductive PoolErr where
  | resourceNotFound
  | transport (msg : String)
deriving DecidableEq

/-- Embedding of the `DataLocation` dataclass (datapool/base.py). -/
structure DataLocation (α : Type) where
  resource_id : α
  tar_file : String
  filename : String
deriving DecidableEq

/-- Association-list lookup, the embedding of Python `dict` reads
(`key in d` / `d[key]`). -/
def alookup {κ β : Type} [DecidableEq κ] : List (κ × β) → κ → Option β
  | [], _ => none
  | (k, v) :: rest, key => if k = key then some v else alookup rest key

/-- Association-list store, the embedding of Python `d[key] = v`
(replaces an existing binding, otherwise appends, preserving insertion
order). -/
def storeKey {κ β : Type} [DecidableEq κ] : List (κ × β) → κ → β → List (κ × β)
  | [], key, v => [(key, v)]
  | (k, w) :: rest, key, v =>
    if k = key then (key, v) :: rest else (k, w) :: storeKey rest key v

/-- A shard index: resource id to the list of intra-archive paths, in
insertion order (the Python `data` dict of `_make_tar_info`). -/
abbrev ShardIndex (α : Type) := List (α × List String)

/-- Embedding of `data.setdefault`-style accumulation in `_make_tar_info`:
`if resource_id not in data: data[resource_id] = []` followed by
`data[resource_id].append(file)`. -/
def addEntry {α : Type} [DecidableEq α] : ShardIndex α → α → String → ShardIndex α
  | [], rid, f => [(rid, [f])]
  | (k, fs) :: rest, rid, f =>
    if k = rid then (k, fs ++ [f]) :: rest else (k, fs) :: addEntry rest rid f

/-- The classification loop of `_make_tar_info`: for every listed file, ask
the recognizer (`_file_to_resource_id`); a `FileUnrecognizableError`
(modelled as `none`) skips the file. -/
def buildIndex {α : Type} [DecidableEq α] (recognize : String → String → Option α)
    (tarFile : String) (files : List String) : ShardIndex α :=
  files.foldl (fun data file =>
    match recognize tarFile file with
    | none => data
    | some rid => addEntry data rid file) []

/-- Embedding of `_n_path`: `os.path.normpath(os.path.join('/', path))`.
`join('/', p)` returns `p` when `p` is already absolute, else `'/' + p`;
`normpath` drops empty and `'.'` components, resolves `'..'`, and keeps a
doubled leading slash only when there are exactly two. -/
def nPath (path : String) : String :=
  let q : List Char := if path.data.head? = some '/' then path.data else '/' :: path.data
  let comps := (splitSlash q).filter (fun c => !(c == [] || c == ['.']))
  let segs := comps.foldl
    (fun acc c => if c = ['.', '.'] then acc.dropLast else acc ++ [c])
    ([] : List (List Char))
  let pfx : List Char :=
    match q with
    | '/' :: '/' :: '/' :: _ => ['/']
    | '/' :: '/' :: _ => ['/', '/']
    | _ => ['/']
  String.mk (pfx ++ joinSlash segs)

/-- The mutable state of one `HfBasedDataPool` instance: its `_tar_infos`
cache, keyed by normalized tar path. -/
structure PoolState (α : Type) where
  tarInfos : List (String × ShardIndex α)

/-- Embedding of `HfBasedDataPool._make_tar_info` (datapool/base.py lines
279-321).  `listing` stands for the remote `hf_tar_list_files` call.
Returns the resulting index (or the propagated listing error), the updated
cache state, and whether a remote listing call was performed. -/
def makeTarInfo {α : Type} [DecidableEq α] (listing : String → Except LErr (List String))
    (recognize : String → String → Option α) (st : PoolState α) (tarFile : String)
    (force : Bool) : Except LErr (ShardIndex α) × PoolState α × Bool :=
  let key := nPath tarFile
  match force, alookup st.tarInfos key with
  | false, some data => (.ok data, st, false)
  | _, _ =>
    match listing tarFile with
    | .error e => (.error e, st, true)
    | .ok allFiles =>
      let data := buildIndex recognize tarFile allFiles
      (.ok data, ⟨storeKey st.tarInfos key data⟩, true)

/-- Embedding of `HfBasedDataPool._request_resource_by_id` (datapool/base.py
lines 335-363): try each candidate archive in order; `EntryNotFoundError`
and `RepositoryNotFoundError` from the listing skip to the next candidate;
other listing errors propagate; the first index containing the id yields one
`DataLocation` per matching file; exhaustion raises
`ResourceNotFoundError`.  The third component logs the tar files for which a
remote listing call was performed. -/
def requestResourceById {α : Type} [DecidableEq α]
    (listing : String → Except LErr (List String))
    (recognize : String → String → Option α) (resourceId : α) :
    List String → PoolState α →
      Except PoolErr (List (DataLocation α)) × PoolState α × List String
  | [], st => (.error .resourceNotFound, st, [])
  | archiveFile :: rest, st =>
    match makeTarInfo listing recognize st archiveFile false with
    | (.error .entryNotFound, st', fetched) =>
      let r := requestResourceById listing recognize resourceId rest st'
      (r.1, r.2.1, (if fetched then [archiveFile] else []) ++ r.2.2)
    | (.error .repoNotFound, st', fetched) =>
      let r := requestResourceById listing recognize resourceId rest st'
      (r.1, r.2.1, (if fetched then [archiveFile] else []) ++ r.2.2)
    | (.error (.other e), st', fetched) =>
      (.error (.transport e), st', if fetched then [archiveFile] else [])
    | (.ok info, st', fetched) =>
      match alookup info resourceId with
      | some files =>
        (.ok (files.map fun f => DataLocation.mk resourceId archiveFile f), st',
          if fetched then [archiveFile] else [])
      | none =>
        let r := requestResourceById listing recognize resourceId rest st'
        (r.1, r.2.1, (if fetched then [archiveFile] else []) ++ r.2.2)

/-- The four possible outcomes of probing one candidate shard, phrased
purely in terms of the remote listing (no cache). -/
inductive ShardOutcome where
  | skip
  | hard (msg : String)
  | found (files : List String)
  | absent
deriving DecidableEq

/-- Pure per-shard outcome: what probing `archiveFile` for `resourceId`
yields when the listing is consulted directly. -/
def shardOutcome {α : Type} [DecidableEq α] (listing : String → Except LErr (List String))
    (recognize : String → String → Option α) (resourceId : α)
    (archiveFile : String) : ShardOutcome :=
  match listing archiveFile with
  | .error .entryNotFound => .skip
  | .error .repoNotFound => .skip
  | .error (.other e) => .hard e
  | .ok allFiles =>
    match alookup (buildIndex recognize archiveFile allFiles) resourceId with
    | some files => .found files
    | none => .absent

/-- The search described by the spec's words (§4.2), stated without the
cache: iterate candidates in order, skip missing shards, propagate other
errors, stop at the first shard containing the id, raise
`ResourceNotFound` on exhaustion.  This is the reference against which the
cached resolver is compared. -/
def specSearch {α : Type} [DecidableEq α] (listing : String → Except LErr (List String))
    (recognize : String → String → Option α) (resourceId : α) :
    List String → Except PoolErr (List (DataLocation α))
  | [] => .error .resourceNotFound
  | archiveFile :: rest =>
    match shardOutcome listing recognize resourceId archiveFile with
    | .skip => specSearch listing recognize resourceId rest
    | .absent => specSearch listing recognize resourceId rest
    | .hard e => .error (.transport e)
    | .found files => .ok (files.map fun f => DataLocation.mk resourceId archiveFile f)

/-- Cache states whose entries agree with the listing: every cached index
is exactly what listing-and-classifying its key would produce.  This is the
invariant under which the cached resolver coincides with the stateless
search. -/
def Consistent {α : Type} [DecidableEq α] (listing : String → Except LErr (List String))
    (recognize : String → String → Option α) (st : PoolState α) : Prop :=
  ∀ k idx, alookup st.tarInfos k = some idx →
    ∀ a, nPath a = k → ∃ files, listing a = .ok files ∧ buildIndex recognize a files = idx

/-! ## Materializer: `HfBasedDataPool.mock_resource` -/

/-- Errors that can escape the body of `mock_resource`: a resolution error
(including `ResourceNotFoundError`), a download error from
`hf_tar_file_download`, or an exception raised by the caller's `with`
block. -/
inductive MockErr where
  | pool (e : PoolErr)
  | download (msg : String)
  | caller (msg : String)
deriving DecidableEq

/-- Abstract filesystem state: the set of live scratch directories (as ids)
and a counter supplying fresh directory names. -/
structure FsState where
  tempDirs : List Nat
  counter : Nat
deriving DecidableEq

/-- Modelled from the spec: the scoped temporary directory used by
`mock_resource` comes from the external `hbutils` `TemporaryDirectory`
context manager, which creates a fresh directory on entry and recursively
deletes it on scope exit — on success and on every exception (Python `with`
runs `__exit__` on all paths, re-raising the body's exception afterwards). -/
def withTempDir (st : FsState) (body : Nat → Except MockErr Unit) :
    Except MockErr Unit × FsState :=
  let d := st.counter
  let r := body d
  (r, { tempDirs := (st.tempDirs ++ [d]).filter (fun x => !(x == d)),
        counter := st.counter + 1 })

/-- The sequential download loop of `mock_resource`: each resolved location
is downloaded in turn; the first failure propagates. -/
def runDownloads {α : Type} (download : DataLocation α → Except String Unit) :
    List (DataLocation α) → Except String Unit
  | [] => .ok ()
  | loc :: rest =>
    match download loc with
    | .error e => .error e
    | .ok _ => runDownloads download rest

/-- Embedding of `HfBasedDataPool.mock_resource` (datapool/base.py lines
378-416): inside a scoped temporary directory, resolve the id, download
every location, then run the caller's block (the code after `yield`);
every error propagates out through the temporary-directory scope. -/
def mockResource {α : Type} [DecidableEq α] (listing : String → Except LErr (List String))
    (recognize : String → String → Option α) (resourceId : α) (archives : List String)
    (pst : PoolState α) (download : DataLocation α → Except String Unit)
    (block : Nat → Except String Unit) (st : FsState) :
    Except MockErr Unit × FsState :=
  withTempDir st (fun td =>
    match (requestResourceById listing recognize resourceId archives pst).1 with
    | .error e => .error (.pool e)
    | .ok locations =>
      match runDownloads download locations with
      | .error m => .error (.download m)
      | .ok _ =>
        match block td with
        | .error m => .error (.caller m)
        | .ok _ => .ok ())

/-! ## Streaming pipeline: `pipe/base.py` -/

/-- Embedding of the `PipeItem` dataclass (pipe/base.py): a successfully
retrieved resource. -/
structure PipeItem (ι δ μ : Type) where
  id : ι
  data : δ
  order_id : Nat
  metainfo : Option μ
deriving DecidableEq

/-- Exceptions that per-item retrieval can raise: `ResourceNotFoundError`,
any other `InvalidResourceDataError`, or an arbitrary other exception. -/
inductive PExc where
  | resourceNotFound
  | invalidData (msg : String)
  | other (msg : String)
deriving DecidableEq

/-- Embedding of the `PipeError` dataclass (pipe/base.py): a captured
per-item failure. -/
structure PipeError (ι μ : Type) where
  id : ι
  error : PExc
  order_id : Nat
  metainfo : Option μ
deriving DecidableEq

/-- A queue envelope: what `_func` pushes onto the session queue. -/
inductive PEnvelope (ι δ μ : Type) where
  | item (it : PipeItem ι δ μ)
  | error (e : PipeError ι μ)
deriving DecidableEq

/-- The `isinstance(data, PipeItem)` test of `PipeSession.__iter__`. -/
def PEnvelope.isItem {ι δ μ : Type} : PEnvelope ι δ μ → Bool
  | .item _ => true
  | .error _ => false

/-- Embedding of `PipeSession.next`: `queue.get` returns the head envelope,
whatever its type (`PipeItem` or `PipeError`); `none` models the `Empty`
timeout on an empty queue. -/
def pipeNext {ι δ μ : Type} :
    List (PEnvelope ι δ μ) → Option (PEnvelope ι δ μ × List (PEnvelope ι δ μ))
  | [] => none
  | e :: rest => some (e, rest)

/-- The limit test of `PipeSession._count_update`:
`max_count is not None and current >= max_count`. -/
def maxReached (maxCount : Option Nat) (current : Nat) : Bool :=
  match maxCount with
  | some m => current ≥ m
  | none => false

/-- Embedding of the loop of `PipeSession.__iter__` (pipe/base.py lines
138-147).  The input list is the sequence of envelopes the iterator pulls
from the queue before the stop-and-drained exit condition holds (`Empty`
timeouts are skipped by the loop and do not appear).  An error envelope is
pulled but neither yielded nor counted; a `PipeItem` is yielded and counted,
and when `_count_update` reaches `max_count` the loop sets the stop signal
and breaks, leaving the remaining suffix unconsumed.  Returns
`(yielded envelopes, final _current_count, stop-set-by-cutoff,
unconsumed suffix)`. -/
def pipeIterLoop {ι δ μ : Type} (maxCount : Option Nat) :
    Nat → List (PEnvelope ι δ μ) →
      List (PEnvelope ι δ μ) × Nat × Bool × List (PEnvelope ι δ μ)
  | cnt, [] => ([], cnt, false, [])
  | cnt, e :: rest =>
    match e with
    | .error _ => pipeIterLoop maxCount cnt rest
    | .item it =>
      if maxReached maxCount (cnt + 1) then ([.item it], cnt + 1, true, rest)
      else
        let r := pipeIterLoop maxCount (cnt + 1) rest
        (.item it :: r.1, r.2.1, r.2.2.1, r.2.2.2)

/-- Embedding of `PipeSession.__iter__` including the initial
`if self._count_update(0): return` guard of a fresh session
(`_current_count = 0`). -/
def pipeIterate {ι δ μ : Type} (maxCount : Option Nat)
    (queue : List (PEnvelope ι δ μ)) :
    List (PEnvelope ι δ μ) × Nat × Bool × List (PEnvelope ι δ μ) :=
  if maxReached maxCount 0 then ([], 0, true, queue)
  else pipeIterLoop maxCount 0 queue

/-- Number of `PipeItem` envelopes in a queue prefix. -/
def countItems {ι δ μ : Type} (q : List (PEnvelope ι δ μ)) : Nat :=
  q.countP (fun e => e.isItem)

/-- Outcome of the blocking put-retry loop of `Pipe.batch_retrieve._func`. -/
inductive PutResult where
  | enqueued
  | dropped
  | pending
deriving DecidableEq

/-- Embedding of the `queue.put` retry loop (pipe/base.py lines 264-272):
each trace element is `(queue-has-space, stop-flag)` at one attempt.  A
successful put breaks with the envelope enqueued; a `Full` with the stop
flag set breaks with the envelope dropped; a `Full` without stop retries.
`pending` stands for a trace that ends with the loop still retrying. -/
def putLoop : List (Bool × Bool) → PutResult
  | [] => .pending
  | (hasSpace, stopped) :: rest =>
    if hasSpace then .enqueued
    else if stopped then .dropped
    else putLoop rest

/-- Result of one worker invocation of `_func`. -/
inductive PipeWorkerOutcome (ι δ μ : Type) where
  | earlyReturn
  | completed (env : PEnvelope ι δ μ) (put : PutResult)
deriving DecidableEq

/-- The try/except structure around `self.retrieve(...)` in `_func`
(pipe/base.py lines 232-246): `ResourceNotFoundError` and
`InvalidResourceDataError` are caught and logged at WARNING, the outer
`except Exception` captures everything else; each handler stores the
exception in `error` and falls through.  The outer `Except` layer is the
propagation channel: a constructor reaching `.error` there would mean an
uncaught exception. -/
def runRetrieveCatching {δ : Type} (r : Except PExc δ) : Except PExc (Except PExc δ) :=
  match r with
  | .ok d => .ok (.ok d)
  | .error .resourceNotFound => .ok (.error .resourceNotFound)
  | .error (.invalidData m) => .ok (.error (.invalidData m))
  | .error (.other m) => .ok (.error (.other m))

/-- Embedding of `Pipe.batch_retrieve._func` (pipe/base.py lines 228-275):
early return when the stop flag is already set; otherwise retrieve (with the
catch structure above), wrap the result as a `PipeItem` (success) or
`PipeError` (captured failure) carrying the submission-order id and
metainfo, and run the blocking put loop.  The second `try` around the queue
loop also catches every exception, so the outer channel stays `.ok`. -/
def pipeWorkerFunc {ι δ μ : Type} (stoppedAtEntry : Bool) (orderId : Nat)
    (resourceId : ι) (metainfo : Option μ) (retrieveResult : Except PExc δ)
    (putTrace : List (Bool × Bool)) : Except PExc (PipeWorkerOutcome ι δ μ) :=
  if stoppedAtEntry then .ok .earlyReturn
  else
    match runRetrieveCatching retrieveResult with
    | .error e => .error e
    | .ok inner =>
      let env : PEnvelope ι δ μ :=
        match inner with
        | .ok d => .item ⟨resourceId, d, orderId, metainfo⟩
        | .error e => .error ⟨resourceId, e, orderId, metainfo⟩
      .ok (.completed env (putLoop putTrace))

/-! ## Batch orchestrator: `DataPool.batch_download_to_directory` -/

/-- What happened to one item of `batch_download_to_directory._func`. -/
inductive BatchItemLog (τ : Type) where
  | skippedEarly
  | processed (t : τ)
  | skippedNotFound
  | skippedError (e : PExc)
deriving DecidableEq

/-- The try/except structure of `batch_download_to_directory._func`
(datapool/base.py lines 182-215): early return once `is_completed` is set;
`ResourceNotFoundError` is caught and logged ("not found, skipped"); the
catch-all `except Exception` logs and skips everything else.  `attempt`
stands for the outcome of the whole `try` body (mock, walk, copy, metainfo
write, count update); the outer `Except` layer is the propagation channel. -/
def batchFunc {τ : Type} (isCompleted : Bool) (attempt : Except PExc τ) :
    Except PExc (BatchItemLog τ) :=
  if isCompleted then .ok .skippedEarly
  else
    match attempt with
    | .ok t => .ok (.processed t)
    | .error .resourceNotFound => .ok .skippedNotFound
    | .error e => .ok (.skippedError e)

/-- File writes performed while processing one resource of
`batch_download_to_directory`: paths written under `dst_dir` and paths
written under the scratch directory `td`. -/
structure CopyEffects where
  dstWrites : List String
  scratchWrites : List String
deriving DecidableEq

/-- Embedding of the copy loop of `batch_download_to_directory._func`
(datapool/base.py lines 188-202).  For each file of the walk snapshot of the
scratch directory `td` (taken before any write, so later writes are not
walked): `shutil.copyfile` it into `dst_dir` (same relative path); then, if
`save_metainfo` and the resource's metainfo is non-null, write the metainfo
JSON to `os.path.join(td, metainfo_fmt.format(resource_id=...))` — a path
under the scratch directory `td`, not under `dst_dir`.  `metaFileName`
stands for the formatted sidecar name. -/
def batchCopyBody {σ : Type} (saveMetainfo : Bool) (metainfo : Option σ)
    (metaFileName : String) (files : List String) : CopyEffects :=
  files.foldl (fun eff f =>
    let eff2 := { eff with dstWrites := eff.dstWrites ++ [f] }
    if saveMetainfo && metainfo.isSome then
      { eff2 with scratchWrites := eff2.scratchWrites ++ [metaFileName] }
    else eff2) ⟨[], []⟩

/-! ## Interleaving model of concurrent `_make_tar_info` cache population

`_make_tar_info` takes no lock.  Each thread executes, at CPython/GIL
atomicity: the membership test `key not in self._tar_infos`; the remote
listing `hf_tar_list_files` (which blocks on I/O and releases the GIL); the
dict store `self._tar_infos[key] = data`.  Both threads target one uncached
shard key; the listing is deterministic, so both stores publish the same
index and the returned `self._tar_infos[key]` is identical either way. -/

/-- Program counter of one thread running `_make_tar_info` for one shard. -/
inductive CachePC where
  | start
  | doFetch
  | doStore
  | doneHit
  | doneStored
deriving DecidableEq

/-- Whether a thread has returned. -/
def CachePC.isDone : CachePC → Bool
  | .doneHit => true
  | .doneStored => true
  | _ => false

/-- Joint state of two concurrent `_make_tar_info` calls on one shard key:
both program counters, whether the key is in `_tar_infos`, and how many
remote listing calls have been made. -/
structure CacheRace where
  pc1 : CachePC
  pc2 : CachePC
  cached : Bool
  fetches : Nat
deriving DecidableEq

/-- One atomic step of a single thread: the membership test either takes
the hit path (key present) or proceeds to fetch; the fetch performs the
remote listing (counted) and proceeds to store; the store publishes the key;
finished threads do nothing. -/
def stepThread (cached : Bool) : CachePC → CachePC × Bool × Nat
  | .start => if cached then (.doneHit, cached, 0) else (.doFetch, cached, 0)
  | .doFetch => (.doStore, cached, 1)
  | .doStore => (.doneStored, true, 0)
  | pc => (pc, cached, 0)

/-- Interleaving step: `true` steps thread 1, `false` steps thread 2. -/
def stepRace (s : CacheRace) (t : Bool) : CacheRace :=
  if t then
    let r := stepThread s.cached s.pc1
    { s with pc1 := r.1, cached := r.2.1, fetches := s.fetches + r.2.2 }
  else
    let r := stepThread s.cached s.pc2
    { s with pc2 := r.1, cached := r.2.1, fetches := s.fetches + r.2.2 }

/-- Run a schedule from the initial state of two concurrent resolve calls
against one uncached shard. -/
def runRace (sched : List Bool) : CacheRace :=
  sched.foldl stepRace ⟨.start, .start, false, 0⟩

/-- How many listing calls a thread at this program counter has already
performed (a thread fetches exactly once, between `doFetch` and
`doStore`). -/
def fetchWeight : CachePC → Nat
  | .doStore => 1
  | .doneStored => 1
  | _ => 0

/-- Invariant of the interleaving: the fetch counter equals the two
threads' fetch weights; the key is cached exactly when some thread has
stored; a thread can only take the hit path after the other stored. -/
def raceInv (s : CacheRace) : Prop :=
  s.fetches = fetchWeight s.pc1 + fetchWeight s.pc2 ∧
  s.cached = (s.pc1 == CachePC.doneStored || s.pc2 == CachePC.doneStored) ∧
  (s.pc1 = CachePC.doneHit → s.pc2 = CachePC.doneStored) ∧
  (s.pc2 = CachePC.doneHit → s.pc1 = CachePC.doneStored)

/-! ## Basic lemmas about the Locator -/

/-- Every character produced by `digitChar` on a digit is a decimal digit. -/
theorem isDigitB_digitChar {n : Nat} (h : n < 10) : isDigitB (digitChar n) = true := by
  interval_cases n <;> decide

/-- Numeric value of a digit character. -/
theorem toNat_digitChar {n : Nat} (h : n < 10) : (digitChar n).toNat - 48 = n := by
  interval_cases n <;> decide

/-- A decimal digit character is never the path separator. -/
theorem ne_slash_of_isDigitB {c : Char} (h : isDigitB c = true) : c ≠ '/' := by
  intro hc; subst hc; simp [isDigitB] at h

/-- All characters emitted by `natStrAux` are digit characters. -/
theorem natStrAux_chars : ∀ f n c, c ∈ natStrAux f n → ∃ m, m < 10 ∧ c = digitChar m
  | 0, _, c => by simp [natStrAux]
  | f + 1, n, c => by
    intro hmem
    by_cases h : n < 10
    · simp [natStrAux, h] at hmem
      exact ⟨n, h, hmem⟩
    · simp [natStrAux, h] at hmem
      rcases hmem with hmem | hmem
      · exact natStrAux_chars f (n / 10) c hmem
      · exact ⟨n % 10, Nat.mod_lt _ (by omega), hmem⟩

/-- `natStrAux` with positive fuel is never empty. -/
theorem natStrAux_ne_nil (f n : Nat) : natStrAux (f + 1) n ≠ [] := by
  by_cases h : n < 10 <;> simp [natStrAux, h]

/-- `natStr n` is never the empty string. -/
theorem natStr_ne_nil (n : Nat) : natStr n ≠ [] :=
  natStrAux_ne_nil n n

/-- Characters of `natStr` are digits. -/
theorem natStr_all_digits (n : Nat) : (natStr n).all isDigitB = true := by
  rw [List.all_eq_true]
  intro c hc
  obtain ⟨m, hm, rfl⟩ := natStrAux_chars _ _ c hc
  exact isDigitB_digitChar hm

/-- Folding the decimal-accumulation step over `natStrAux f n` recovers `n`
(in any accumulator context), provided the fuel bounds the digit count. -/
theorem foldl_natStrAux :
    ∀ f n acc, n < 10 ^ f →
      List.foldl (fun a c => a * 10 + (c.toNat - 48)) acc (natStrAux f n) =
        acc * 10 ^ (natStrAux f n).length + n
  | 0, n, acc => by
    intro h
    simp [natStrAux]
    omega
  | f + 1, n, acc => by
    intro h
    by_cases hn : n < 10
    · simp [natStrAux, hn, toNat_digitChar hn]
    · have hdiv : n / 10 < 10 ^ f := by
        rw [Nat.div_lt_iff_lt_mul (by norm_num)]
        calc n < 10 ^ (f + 1) := h
        _ = 10 ^ f * 10 := by ring
      simp only [natStrAux, if_neg hn, List.foldl_append, List.foldl_cons, List.foldl_nil,
        List.length_append, List.length_cons, List.length_nil]
      rw [foldl_natStrAux f (n / 10) acc hdiv, toNat_digitChar (Nat.mod_lt _ (by omega))]
      have : acc * 10 ^ ((natStrAux f (n / 10)).length + (0 + 1)) =
          acc * 10 ^ (natStrAux f (n / 10)).length * 10 := by ring
      rw [this]
      omega

/-- Parsing the decimal string of `n` gives back `n`. -/
theorem parse_natStr (n : Nat) :
    (natStr n).foldl (fun a c => a * 10 + (c.toNat - 48)) 0 = n := by
  have hlt : n < 10 ^ (n + 1) :=
    lt_of_lt_of_le (Nat.lt_pow_self (by norm_num) n)
      (Nat.pow_le_pow_right (by norm_num) (Nat.le_succ n))
  have h := foldl_natStrAux (n + 1) n 0 hlt
  simpa [natStr] using h

/-- Leading zeros do not change the parsed value. -/
theorem foldl_replicate_zero (k : Nat) (s : List Char) :
    List.foldl (fun a c => a * 10 + (c.toNat - 48)) 0 (List.replicate k '0' ++ s) =
      List.foldl (fun a c => a * 10 + (c.toNat - 48)) 0 s := by
  induction k with
  | zero => simp
  | succ k ih => simpa using ih

/-- `parseNatQ` of a zero-padded decimal string of `n` is `n`. -/
theorem parseNatQ_zeroPad_natStr (L n : Nat) :
    parseNatQ (zeroPad L (natStr n)) = some n := by
  have hne : zeroPad L (natStr n) ≠ [] := by
    intro h
    exact natStr_ne_nil n (List.append_eq_nil.mp h).2
  have hall : (zeroPad L (natStr n)).all isDigitB = true := by
    rw [List.all_eq_true]
    intro c hc
    rw [zeroPad, List.mem_append] at hc
    rcases hc with hc | hc
    · rw [List.eq_of_mem_replicate hc]; decide
    · exact List.all_eq_true.mp (natStr_all_digits n) c hc
  rw [parseNatQ, if_pos ⟨hne, hall⟩, zeroPad, foldl_replicate_zero, parse_natStr]

/-- Characters of `zeroPad L (natStr n)` are all digits. -/
theorem zeroPad_natStr_digits (L n : Nat) :
    ∀ c ∈ zeroPad L (natStr n), isDigitB c = true := by
  intro c hc
  rw [zeroPad, List.mem_append] at hc
  rcases hc with hc | hc
  · rw [List.eq_of_mem_replicate hc]; decide
  · obtain ⟨m, hm, rfl⟩ := natStrAux_chars _ _ c hc
    exact isDigitB_digitChar hm

/-- Flattening the reversed chunks recovers the reversed input. -/
theorem chunkRev_flatten : ∀ l : List Char, ((chunkRev l).reverse).flatten = l.reverse
  | [] => by simp [chunkRev]
  | [a] => by simp [chunkRev]
  | [a, b] => by simp [chunkRev]
  | a :: b :: c :: rest => by
    have ih := chunkRev_flatten rest
    simp [chunkRev, ih]

/-- Concatenating the segments of `id_modulo_cut` recovers the input string. -/
theorem id_modulo_cut_flatten (s : List Char) : (id_modulo_cut s).flatten = s := by
  rw [id_modulo_cut, chunkRev_flatten, List.reverse_reverse]

/-- Every character inside a chunk comes from the chunked list. -/
theorem chunkRev_mem : ∀ l : List Char, ∀ seg ∈ chunkRev l, ∀ c ∈ seg, c ∈ l
  | [] => by simp [chunkRev]
  | [a] => by
    intro seg hseg c hc
    simp [chunkRev] at hseg
    subst hseg
    simpa using hc
  | [a, b] => by
    intro seg hseg c hc
    simp [chunkRev] at hseg
    subst hseg
    simp at hc
    rcases hc with rfl | rfl <;> simp
  | a :: b :: d :: rest => by
    intro seg hseg c hc
    simp only [chunkRev, List.mem_cons] at hseg
    rcases hseg with rfl | hseg
    · simp at hc
      rcases hc with rfl | rfl | rfl <;> simp
    · have := chunkRev_mem rest seg hseg c hc
      simp [this]

/-- `chunkRev` of a non-empty list is non-empty. -/
theorem chunkRev_ne_nil : ∀ l : List Char, l ≠ [] → chunkRev l ≠ []
  | [], h => absurd rfl h
  | [_], _ => by simp [chunkRev]
  | [_, _], _ => by simp [chunkRev]
  | _ :: _ :: _ :: _, _ => by simp [chunkRev]

/-- `id_modulo_cut` of a non-empty string is non-empty. -/
theorem id_modulo_cut_ne_nil (s : List Char) (h : s ≠ []) : id_modulo_cut s ≠ [] := by
  rw [id_modulo_cut]
  intro hcontra
  exact chunkRev_ne_nil s.reverse (by simpa using h) (by simpa using hcontra)

/-- `padLastSegment` preserves non-emptiness. -/
theorem padLastSegment_ne_nil : ∀ segs : List (List Char), segs ≠ [] → padLastSegment segs ≠ []
  | [], h => absurd rfl h
  | [_], _ => by simp [padLastSegment]
  | _ :: _ :: _, _ => by simp [padLastSegment]

/-- Stripping the injected leading zero from the final segment undoes
`padLastSegment`. -/
theorem stripLastZero_padLastSegment : ∀ segs : List (List Char),
    stripLastZero (padLastSegment segs) = segs
  | [] => rfl
  | [x] => by simp [padLastSegment, stripLastZero, stripLeadZero]
  | x :: y :: rest => by
    have ih := stripLastZero_padLastSegment (y :: rest)
    obtain ⟨z, zs, hz⟩ :=
      List.exists_cons_of_ne_nil (padLastSegment_ne_nil (y :: rest) (by simp))
    show stripLastZero (x :: padLastSegment (y :: rest)) = x :: y :: rest
    rw [hz] at ih ⊢
    show x :: stripLastZero (z :: zs) = x :: y :: rest
    rw [ih]

/-- Character membership through `padLastSegment`: every character is either
the injected `'0'` or a character of an original segment. -/
theorem padLastSegment_chars (P : Char → Prop) (h0 : P '0') :
    ∀ segs : List (List Char), (∀ seg ∈ segs, ∀ c ∈ seg, P c) →
      ∀ seg ∈ padLastSegment segs, ∀ c ∈ seg, P c
  | [], _ => by simp [padLastSegment]
  | [x], h => by
    intro seg hseg c hc
    simp [padLastSegment] at hseg
    subst hseg
    rcases List.mem_cons.mp hc with rfl | hc
    · exact h0
    · exact h x (by simp) c hc
  | x :: y :: rest, h => by
    intro seg hseg c hc
    have hseg' : seg ∈ x :: padLastSegment (y :: rest) := hseg
    rcases List.mem_cons.mp hseg' with rfl | hseg2
    · exact h seg (by simp) c hc
    · exact padLastSegment_chars P h0 (y :: rest)
        (fun s hs d hd => h s (List.mem_cons_of_mem _ hs) d hd) seg hseg2 c hc

/-- `splitSlash` never returns the empty list. -/
theorem splitSlash_ne_nil : ∀ l : List Char, splitSlash l ≠ []
  | [] => by simp [splitSlash]
  | c :: rest => by
    by_cases h : c = '/'
    · simp [splitSlash, h]
    · simp only [splitSlash, if_neg h]
      match splitSlash rest with
      | [] => simp
      | s :: ss => simp

/-- `splitSlash` undoes prepending a slash-free prefix followed by `'/'`. -/
theorem splitSlash_append_slash : ∀ s t : List Char, (∀ c ∈ s, c ≠ '/') →
    splitSlash (s ++ '/' :: t) = s :: splitSlash t
  | [], t, _ => by simp [splitSlash]
  | c :: s', t, h => by
    have hc : c ≠ '/' := h c (by simp)
    have ih := splitSlash_append_slash s' t (fun d hd => h d (List.mem_cons_of_mem _ hd))
    simp only [List.cons_append, splitSlash, if_neg hc, List.append_eq, ih]

/-- `splitSlash` of a slash-free string is that single segment. -/
theorem splitSlash_no_slash : ∀ s : List Char, (∀ c ∈ s, c ≠ '/') → splitSlash s = [s]
  | [], _ => rfl
  | c :: s', h => by
    have hc : c ≠ '/' := h c (by simp)
    have ih := splitSlash_no_slash s' (fun d hd => h d (List.mem_cons_of_mem _ hd))
    simp only [splitSlash, if_neg hc, ih]

/-- Splitting on `'/'` undoes `joinSlash` for non-empty, slash-free segments. -/
theorem splitSlash_joinSlash : ∀ segs : List (List Char), segs ≠ [] →
    (∀ seg ∈ segs, ∀ c ∈ seg, c ≠ '/') → splitSlash (joinSlash segs) = segs
  | [], h, _ => absurd rfl h
  | [x], _, hall => by
    show splitSlash x = [x]
    exact splitSlash_no_slash x (hall x (by simp))
  | x :: y :: rest, _, hall => by
    have ih := splitSlash_joinSlash (y :: rest) (by simp)
      (fun s hs c hc => hall s (List.mem_cons_of_mem _ hs) c hc)
    show splitSlash (x ++ '/' :: joinSlash (y :: rest)) = x :: y :: rest
    rw [splitSlash_append_slash x _ (hall x (by simp)), ih]

/-- Every character of an `id_modulo_cut` segment is a character of the
input string. -/
theorem id_modulo_cut_chars (s : List Char) :
    ∀ seg ∈ id_modulo_cut s, ∀ c ∈ seg, c ∈ s := by
  intro seg hseg c hc
  rw [id_modulo_cut, List.mem_reverse] at hseg
  have := chunkRev_mem s.reverse seg hseg c hc
  exact List.mem_reverse.mp this

/-- Dropping the `base_dir` prefix plus the separating slash. -/
theorem drop_dir_slash (bd X : List Char) :
    (bd ++ '/' :: X).drop (bd.length + 1) = X := by
  have h : bd ++ '/' :: X = (bd ++ ['/']) ++ X := by simp
  have hlen : (bd ++ ['/']).length = bd.length + 1 := by simp
  rw [h, ← hlen, List.drop_left]

/-- Stripping the `.tar` suffix undoes appending it. -/
theorem stripTarSuffix_append (X : List Char) :
    stripTarSuffix (X ++ ".tar".data) = X := by
  have hT : (".tar".data).length = 4 := by decide
  rw [stripTarSuffix, List.length_append, hT, Nat.add_sub_cancel]
  exact List.take_left X _

/-- C2 counterexample.  The claim decodes the shard path by "splitting on
'/' … concatenating all segments and parsing the result as an integer"; with
the default `base_dir = 'images'` the concatenation retains the `images`
segment, so the parse fails (`int('images005')` raises), and the decoded
value is not `r mod 10^L`.  Concrete input: `base_dir='images'`, `L=3`,
`r=5`, whose shard path is `images/0005.tar`. -/
theorem c2_decode_counterexample :
    requestPossibleArchives "images" (Sum.inl 3) 5 = ["images/0005.tar"] ∧
      decodeLiteral "images/0005.tar" ≠ some (5 % 10 ^ 3) := by
  constructor
  · decide
  · decide

/-- C2 (amended): the round-trip law holds once the decode is applied to the
shard path relative to `base_dir` (drop the `base_dir ++ '/'` prefix, strip
`.tar`, split on `'/'`, strip the injected leading `'0'` from the final
segment, concatenate): for every `base_dir`, level `L` and resource id `r`,
the Locator emits exactly one path, the concatenated digit string is
`r mod 10^L` zero-padded to width `L`, and parsing it yields `r mod 10^L`. -/
theorem c2_locator_roundtrip (baseDir : String) (L r : Nat) :
    ∃ p, requestPossibleArchives baseDir (Sum.inl L) r = [p] ∧
      decodeRelDigits baseDir p = zeroPad L (natStr (r % 10 ^ L)) ∧
      parseNatQ (decodeRelDigits baseDir p) = some (r % 10 ^ L) := by
  have hm : r % 10 ^ L = r % 10 ^ L := rfl
  refine ⟨String.mk (baseDir.data ++ '/' ::
      joinSlash (padLastSegment (id_modulo_cut (zeroPad L (natStr (r % 10 ^ L))))) ++
      ".tar".data), rfl, ?_, ?_⟩
  · -- digit-string equality
    have hms_ne : zeroPad L (natStr (r % 10 ^ L)) ≠ [] := by
      intro h
      exact natStr_ne_nil _ (List.append_eq_nil.mp h).2
    have hsegs_ne : padLastSegment (id_modulo_cut (zeroPad L (natStr (r % 10 ^ L)))) ≠ [] :=
      padLastSegment_ne_nil _ (id_modulo_cut_ne_nil _ hms_ne)
    have hsegchars : ∀ seg ∈ padLastSegment (id_modulo_cut (zeroPad L (natStr (r % 10 ^ L)))),
        ∀ c ∈ seg, isDigitB c = true := by
      refine padLastSegment_chars (fun c => isDigitB c = true) (by decide) _ ?_
      intro seg hseg c hc
      exact zeroPad_natStr_digits L _ c (id_modulo_cut_chars _ seg hseg c hc)
    have hnoslash : ∀ seg ∈ padLastSegment (id_modulo_cut (zeroPad L (natStr (r % 10 ^ L)))),
        ∀ c ∈ seg, c ≠ '/' :=
      fun seg hs c hc => ne_slash_of_isDigitB (hsegchars seg hs c hc)
    show (stripLastZero (splitSlash (stripTarSuffix
      ((baseDir.data ++ '/' ::
        joinSlash (padLastSegment (id_modulo_cut (zeroPad L (natStr (r % 10 ^ L))))) ++
        ".tar".data).drop (baseDir.data.length + 1))))).flatten = _
    have hgroup : baseDir.data ++ '/' ::
        joinSlash (padLastSegment (id_modulo_cut (zeroPad L (natStr (r % 10 ^ L))))) ++
        ".tar".data =
        baseDir.data ++ '/' ::
        (joinSlash (padLastSegment (id_modulo_cut (zeroPad L (natStr (r % 10 ^ L))))) ++
        ".tar".data) := by simp
    rw [hgroup, drop_dir_slash, stripTarSuffix_append,
      splitSlash_joinSlash _ hsegs_ne hnoslash, stripLastZero_padLastSegment,
      id_modulo_cut_flatten]
  · -- parse equality
    have hms_ne : zeroPad L (natStr (r % 10 ^ L)) ≠ [] := by
      intro h
      exact natStr_ne_nil _ (List.append_eq_nil.mp h).2
    have hsegs_ne : padLastSegment (id_modulo_cut (zeroPad L (natStr (r % 10 ^ L)))) ≠ [] :=
      padLastSegment_ne_nil _ (id_modulo_cut_ne_nil _ hms_ne)
    have hsegchars : ∀ seg ∈ padLastSegment (id_modulo_cut (zeroPad L (natStr (r % 10 ^ L)))),
        ∀ c ∈ seg, isDigitB c = true := by
      refine padLastSegment_chars (fun c => isDigitB c = true) (by decide) _ ?_
      intro seg hseg c hc
      exact zeroPad_natStr_digits L _ c (id_modulo_cut_chars _ seg hseg c hc)
    have hnoslash : ∀ seg ∈ padLastSegment (id_modulo_cut (zeroPad L (natStr (r % 10 ^ L)))),
        ∀ c ∈ seg, c ≠ '/' :=
      fun seg hs c hc => ne_slash_of_isDigitB (hsegchars seg hs c hc)
    show parseNatQ ((stripLastZero (splitSlash (stripTarSuffix
      ((baseDir.data ++ '/' ::
        joinSlash (padLastSegment (id_modulo_cut (zeroPad L (natStr (r % 10 ^ L))))) ++
        ".tar".data).drop (baseDir.data.length + 1))))).flatten) = _
    have hgroup : baseDir.data ++ '/' ::
        joinSlash (padLastSegment (id_modulo_cut (zeroPad L (natStr (r % 10 ^ L))))) ++
        ".tar".data =
        baseDir.data ++ '/' ::
        (joinSlash (padLastSegment (id_modulo_cut (zeroPad L (natStr (r % 10 ^ L))))) ++
        ".tar".data) := by simp
    rw [hgroup, drop_dir_slash, stripTarSuffix_append,
      splitSlash_joinSlash _ hsegs_ne hnoslash, stripLastZero_padLastSegment,
      id_modulo_cut_flatten]
    exact parseNatQ_zeroPad_natStr L _

/-- C3 counterexample.  With `base_dir='images'`, `base_level=3` and
`resource_id=123456789` the Locator does NOT produce
`images/789/456/0123.tar`: `base_level=3` keeps only `r mod 10^3 = 789`,
giving the single-group path `images/0789.tar`. -/
theorem c3_scenario_counterexample :
    requestPossibleArchives "images" (Sum.inl 3) 123456789 ≠
      ["images/789/456/0123.tar"] := by
  decide

/-- C3 (amended): with `base_dir='images'`, `base_level=3`,
`resource_id=123456789` the candidate shard path is `images/0789.tar`
(single group `789 = r mod 10^3`, `'0'`-padded to `0789`); the three-group
layout for this id arises at `base_level=9`, as `images/123/456/0789.tar` —
groups in most-significant-first order `123`,`456`,`789`, with the literal
`'0'` injected on the final (least-significant) segment. -/
theorem c3_scenario_amended :
    requestPossibleArchives "images" (Sum.inl 3) 123456789 = ["images/0789.tar"] ∧
      requestPossibleArchives "images" (Sum.inl 9) 123456789 =
        ["images/123/456/0789.tar"] := by
  constructor
  · decide
  · decide

/-! ## Lemmas about the shard-index cache and resolver -/

section Resolver

variable {α : Type} [DecidableEq α] (listing : String → Except LErr (List String))
  (recognize : String → String → Option α) (resourceId : α)

/-- Storing then looking up the same key. -/
theorem alookup_storeKey_self {κ β : Type} [DecidableEq κ] :
    ∀ (m : List (κ × β)) (k : κ) (v : β), alookup (storeKey m k v) k = some v
  | [], k, v => by simp [storeKey, alookup]
  | (k', w) :: rest, k, v => by
    by_cases h : k' = k
    · simp [storeKey, h, alookup]
    · simp [storeKey, h, alookup, alookup_storeKey_self rest k v]

/-- Storing one key leaves other lookups unchanged. -/
theorem alookup_storeKey_ne {κ β : Type} [DecidableEq κ] {k' k : κ} (hne : k' ≠ k) :
    ∀ (m : List (κ × β)) (v : β), alookup (storeKey m k v) k' = alookup m k'
  | [], v => by
    have hkk' : ¬ (k = k') := fun he => hne he.symm
    simp [storeKey, alookup, hkk']
  | (k'', w) :: rest, v => by
    by_cases h : k'' = k
    · subst h
      have hkk' : ¬ (k'' = k') := fun he => hne he.symm
      simp [storeKey, alookup, hkk']
    · by_cases h2 : k'' = k'
      · subst h2
        simp [storeKey, alookup, h]
      · simp [storeKey, h, alookup, h2, alookup_storeKey_ne hne rest v]

/-- Inverting a lookup in a stored map. -/
theorem alookup_storeKey_inv {κ β : Type} [DecidableEq κ] {m : List (κ × β)} {k k'' : κ}
    {v w : β} (h : alookup (storeKey m k v) k'' = some w) :
    (k'' = k ∧ w = v) ∨ alookup m k'' = some w := by
  by_cases hk : k'' = k
  · subst hk
    rw [alookup_storeKey_self] at h
    exact Or.inl ⟨rfl, (Option.some.injEq _ _ ▸ h).symm⟩
  · rw [alookup_storeKey_ne hk] at h
    exact Or.inr h

/-- Reduction: `_make_tar_info` on a cached key is a pure cache hit. -/
theorem makeTarInfo_cached {st : PoolState α} {a : String} {idx : ShardIndex α}
    (h : alookup st.tarInfos (nPath a) = some idx) :
    makeTarInfo listing recognize st a false = (.ok idx, st, false) := by
  simp [makeTarInfo, h]

/-- Reduction: `_make_tar_info` on an uncached key with a failing listing
propagates the error and leaves the cache unchanged. -/
theorem makeTarInfo_uncached_err {st : PoolState α} {a : String} {e : LErr}
    (h : alookup st.tarInfos (nPath a) = none) (he : listing a = .error e) :
    makeTarInfo listing recognize st a false = (.error e, st, true) := by
  simp [makeTarInfo, h, he]

/-- Reduction: `_make_tar_info` on an uncached key with a successful listing
builds, stores and returns the classified index. -/
theorem makeTarInfo_uncached_ok {st : PoolState α} {a : String} {fs : List String}
    (h : alookup st.tarInfos (nPath a) = none) (hfs : listing a = .ok fs) :
    makeTarInfo listing recognize st a false =
      (.ok (buildIndex recognize a fs),
        ⟨storeKey st.tarInfos (nPath a) (buildIndex recognize a fs)⟩, true) := by
  simp [makeTarInfo, h, hfs]

/-- `buildIndex` only depends on the recognizer's behavior on the listed
files, so recognizers that agree on two tar names build equal indices. -/
theorem buildIndex_congr {b a : String} (h : ∀ f, recognize b f = recognize a f) :
    ∀ (fs : List String) (init : ShardIndex α),
      fs.foldl (fun data file =>
        match recognize b file with
        | none => data
        | some rid => addEntry data rid file) init =
      fs.foldl (fun data file =>
        match recognize a file with
        | none => data
        | some rid => addEntry data rid file) init
  | [], _ => rfl
  | f :: fs, init => by
    rw [List.foldl_cons, List.foldl_cons, h f]
    exact buildIndex_congr h fs _

end Resolver

section ResolverSearch

variable {α : Type} [DecidableEq α] {listing : String → Except LErr (List String)}
  {recognize : String → String → Option α} {resourceId : α}

/-- A fresh pool instance (`self._tar_infos = {}`) is trivially consistent. -/
theorem consistent_empty : Consistent listing recognize (⟨[]⟩ : PoolState α) := by
  intro k idx h
  simp [alookup] at h

/-- Storing a freshly built index preserves consistency, provided the
listing and the recognizer only depend on the normalized tar path. -/
theorem consistent_store {st : PoolState α} {a : String} {fs : List String}
    (hlist : ∀ a b, nPath a = nPath b → listing a = listing b)
    (hrec : ∀ a b, nPath a = nPath b → ∀ f, recognize a f = recognize b f)
    (hc : Consistent listing recognize st)
    (hl : listing a = .ok fs) :
    Consistent listing recognize
      (⟨storeKey st.tarInfos (nPath a) (buildIndex recognize a fs)⟩ : PoolState α) := by
  intro k idx hk b hb
  rcases alookup_storeKey_inv hk with ⟨hkk, hidx⟩ | hold
  · have hba : nPath b = nPath a := by rw [hb, hkk]
    have hlb : listing b = .ok fs := by rw [hlist b a hba]; exact hl
    refine ⟨fs, hlb, ?_⟩
    rw [hidx]
    exact buildIndex_congr recognize (hrec b a hba) fs []
  · exact hc k idx hold b hb

/-- The cached resolver from any consistent state computes exactly the
stateless search of the spec. -/
theorem resolve_fst_eq_spec
    (hlist : ∀ a b, nPath a = nPath b → listing a = listing b)
    (hrec : ∀ a b, nPath a = nPath b → ∀ f, recognize a f = recognize b f) :
    ∀ (archives : List String) (st : PoolState α), Consistent listing recognize st →
      (requestResourceById listing recognize resourceId archives st).1 =
        specSearch listing recognize resourceId archives
  | [], _, _ => rfl
  | a :: rest, st, hc => by
    cases hkey : alookup st.tarInfos (nPath a) with
    | some idx =>
      obtain ⟨fs, hlfs, hbuild⟩ := hc (nPath a) idx hkey a rfl
      have hmk := makeTarInfo_cached listing recognize hkey
      cases hlook : alookup idx resourceId with
      | some files =>
        have hout : shardOutcome listing recognize resourceId a = .found files := by
          simp only [shardOutcome, hlfs, hbuild, hlook]
        simp only [requestResourceById, hmk, hlook, specSearch, hout]
      | none =>
        have hout : shardOutcome listing recognize resourceId a = .absent := by
          simp only [shardOutcome, hlfs, hbuild, hlook]
        simp only [requestResourceById, hmk, hlook, specSearch, hout]
        exact resolve_fst_eq_spec hlist hrec rest st hc
    | none =>
      cases hl : listing a with
      | error e =>
        cases e with
        | entryNotFound =>
          have hmk := makeTarInfo_uncached_err listing recognize hkey hl
          have hout : shardOutcome listing recognize resourceId a = .skip := by
            simp only [shardOutcome, hl]
          simp only [requestResourceById, hmk, specSearch, hout]
          exact resolve_fst_eq_spec hlist hrec rest st hc
        | repoNotFound =>
          have hmk := makeTarInfo_uncached_err listing recognize hkey hl
          have hout : shardOutcome listing recognize resourceId a = .skip := by
            simp only [shardOutcome, hl]
          simp only [requestResourceById, hmk, specSearch, hout]
          exact resolve_fst_eq_spec hlist hrec rest st hc
        | other msg =>
          have hmk := makeTarInfo_uncached_err listing recognize hkey hl
          have hout : shardOutcome listing recognize resourceId a = .hard msg := by
            simp only [shardOutcome, hl]
          simp only [requestResourceById, hmk, specSearch, hout]
      | ok fs =>
        have hmk := makeTarInfo_uncached_ok listing recognize hkey hl
        cases hlook : alookup (buildIndex recognize a fs) resourceId with
        | some files =>
          have hout : shardOutcome listing recognize resourceId a = .found files := by
            simp only [shardOutcome, hl, hlook]
          simp only [requestResourceById, hmk, hlook, specSearch, hout]
        | none =>
          have hout : shardOutcome listing recognize resourceId a = .absent := by
            simp only [shardOutcome, hl, hlook]
          simp only [requestResourceById, hmk, hlook, specSearch, hout]
          exact resolve_fst_eq_spec hlist hrec rest _ (consistent_store hlist hrec hc hl)

/-- A clean prefix (skipped or id-absent shards) does not change the
stateless search. -/
theorem specSearch_prefix : ∀ (pre rest' : List String),
    (∀ b ∈ pre, shardOutcome listing recognize resourceId b = .skip ∨
      shardOutcome listing recognize resourceId b = .absent) →
    specSearch listing recognize resourceId (pre ++ rest') =
      specSearch listing recognize resourceId rest'
  | [], _, _ => rfl
  | b :: pre, rest', h => by
    have hrest := specSearch_prefix pre rest'
      (fun x hx => h x (List.mem_cons_of_mem _ hx))
    rcases h b (by simp) with hb | hb <;>
      simp only [List.cons_append, specSearch, hb, List.append_eq, hrest]

/-- The stateless search raises `ResourceNotFound` exactly when every
candidate was skipped or did not contain the id. -/
theorem specSearch_rnf_iff : ∀ archives : List String,
    (specSearch listing recognize resourceId archives = .error .resourceNotFound ↔
      ∀ a ∈ archives, shardOutcome listing recognize resourceId a = .skip ∨
        shardOutcome listing recognize resourceId a = .absent)
  | [] => by simp [specSearch]
  | a :: rest => by
    cases hout : shardOutcome listing recognize resourceId a with
    | skip =>
      simp only [specSearch, hout]
      rw [specSearch_rnf_iff rest]
      constructor
      · intro h b hb
        rcases List.mem_cons.mp hb with rfl | hb
        · exact Or.inl hout
        · exact h b hb
      · intro h b hb
        exact h b (List.mem_cons_of_mem _ hb)
    | absent =>
      simp only [specSearch, hout]
      rw [specSearch_rnf_iff rest]
      constructor
      · intro h b hb
        rcases List.mem_cons.mp hb with rfl | hb
        · exact Or.inr hout
        · exact h b hb
      · intro h b hb
        exact h b (List.mem_cons_of_mem _ hb)
    | hard e =>
      simp only [specSearch, hout]
      constructor
      · intro h
        cases h
      · intro h
        rcases h a (by simp) with hab | hab <;> rw [hout] at hab <;> cases hab
    | found files =>
      simp only [specSearch, hout]
      constructor
      · intro h
        cases h
      · intro h
        rcases h a (by simp) with hab | hab <;> rw [hout] at hab <;> cases hab

end ResolverSearch

section ResolverCache

variable {α : Type} [DecidableEq α] {listing : String → Except LErr (List String)}
  {recognize : String → String → Option α} {resourceId : α}

/-- The resolver never drops or changes existing cache entries. -/
theorem resolve_mono : ∀ (archives : List String) (st : PoolState α) (k : String)
    (v : ShardIndex α),
    alookup st.tarInfos k = some v →
    alookup ((requestResourceById listing recognize resourceId archives st).2.1).tarInfos k
      = some v
  | [], _, _, _, h => h
  | a :: rest, st, k, v, h => by
    cases hkey : alookup st.tarInfos (nPath a) with
    | some idx =>
      have hmk := makeTarInfo_cached listing recognize hkey
      cases hlook : alookup idx resourceId with
      | some files =>
        simp only [requestResourceById, hmk, hlook]
        exact h
      | none =>
        simp only [requestResourceById, hmk, hlook]
        exact resolve_mono rest st k v h
    | none =>
      cases hl : listing a with
      | error e =>
        have hmk := makeTarInfo_uncached_err listing recognize hkey hl
        cases e with
        | entryNotFound =>
          simp only [requestResourceById, hmk]
          exact resolve_mono rest st k v h
        | repoNotFound =>
          simp only [requestResourceById, hmk]
          exact resolve_mono rest st k v h
        | other msg =>
          simp only [requestResourceById, hmk]
          exact h
      | ok fs =>
        have hmk := makeTarInfo_uncached_ok listing recognize hkey hl
        have hkk : k ≠ nPath a := by
          intro he
          rw [← he] at hkey
          rw [h] at hkey
          cases hkey
        have h' : alookup (storeKey st.tarInfos (nPath a) (buildIndex recognize a fs)) k
            = some v := by
          rw [alookup_storeKey_ne hkk]
          exact h
        cases hlook : alookup (buildIndex recognize a fs) resourceId with
        | some files =>
          simp only [requestResourceById, hmk, hlook]
          exact h'
        | none =>
          simp only [requestResourceById, hmk, hlook]
          exact resolve_mono rest _ k v h'

/-- The resolver preserves cache consistency. -/
theorem resolve_consistent
    (hlist : ∀ a b, nPath a = nPath b → listing a = listing b)
    (hrec : ∀ a b, nPath a = nPath b → ∀ f, recognize a f = recognize b f) :
    ∀ (archives : List String) (st : PoolState α), Consistent listing recognize st →
      Consistent listing recognize
        ((requestResourceById listing recognize resourceId archives st).2.1)
  | [], _, hc => hc
  | a :: rest, st, hc => by
    cases hkey : alookup st.tarInfos (nPath a) with
    | some idx =>
      have hmk := makeTarInfo_cached listing recognize hkey
      cases hlook : alookup idx resourceId with
      | some files =>
        simp only [requestResourceById, hmk, hlook]
        exact hc
      | none =>
        simp only [requestResourceById, hmk, hlook]
        exact resolve_consistent hlist hrec rest st hc
    | none =>
      cases hl : listing a with
      | error e =>
        have hmk := makeTarInfo_uncached_err listing recognize hkey hl
        cases e with
        | entryNotFound =>
          simp only [requestResourceById, hmk]
          exact resolve_consistent hlist hrec rest st hc
        | repoNotFound =>
          simp only [requestResourceById, hmk]
          exact resolve_consistent hlist hrec rest st hc
        | other msg =>
          simp only [requestResourceById, hmk]
          exact hc
      | ok fs =>
        have hmk := makeTarInfo_uncached_ok listing recognize hkey hl
        have hc' := consistent_store hlist hrec hc hl
        cases hlook : alookup (buildIndex recognize a fs) resourceId with
        | some files =>
          simp only [requestResourceById, hmk, hlook]
          exact hc'
        | none =>
          simp only [requestResourceById, hmk, hlook]
          exact resolve_consistent hlist hrec rest _ hc'

/-- In a consistent cache, a shard whose listing fails cannot be cached. -/
theorem uncached_of_listing_error {st : PoolState α} {a : String} {e : LErr}
    (hc : Consistent listing recognize st) (hl : listing a = .error e) :
    alookup st.tarInfos (nPath a) = none := by
  cases hkey : alookup st.tarInfos (nPath a) with
  | none => rfl
  | some idx =>
    obtain ⟨fs, hlfs, _⟩ := hc (nPath a) idx hkey a rfl
    rw [hl] at hlfs
    cases hlfs

/-- Running the resolver a second time from the state produced by a first
run returns the same result, leaves the cache unchanged, and performs
remote listings only for tar paths that are still uncached. -/
theorem resolve_idem
    (hlist : ∀ a b, nPath a = nPath b → listing a = listing b)
    (hrec : ∀ a b, nPath a = nPath b → ∀ f, recognize a f = recognize b f) :
    ∀ (archives : List String) (st : PoolState α)
      (r : Except PoolErr (List (DataLocation α))) (s1 : PoolState α) (log : List String),
      Consistent listing recognize st →
      requestResourceById listing recognize resourceId archives st = (r, s1, log) →
      (requestResourceById listing recognize resourceId archives s1).1 = r ∧
      (requestResourceById listing recognize resourceId archives s1).2.1 = s1 ∧
      ∀ t ∈ (requestResourceById listing recognize resourceId archives s1).2.2,
        alookup s1.tarInfos (nPath t) = none
  | [], st, r, s1, log, _, h => by
    simp only [requestResourceById, Prod.mk.injEq] at h
    obtain ⟨h1, h2, h3⟩ := h
    subst h1
    subst h2
    exact ⟨rfl, rfl, by simp [requestResourceById]⟩
  | a :: rest, st, r, s1, log, hc, h => by
    cases hkey : alookup st.tarInfos (nPath a) with
    | some idx =>
      have hmk := makeTarInfo_cached listing recognize hkey
      cases hlook : alookup idx resourceId with
      | some files =>
        simp only [requestResourceById, hmk, hlook, if_neg, Prod.mk.injEq] at h
        obtain ⟨h1, h2, h3⟩ := h
        subst h1
        subst h2
        simp [requestResourceById, hmk, hlook]
      | none =>
        rcases hrest : requestResourceById listing recognize resourceId rest st
          with ⟨r', s', log'⟩
        simp only [requestResourceById, hmk, hlook, hrest, List.nil_append,
          Prod.mk.injEq] at h
        obtain ⟨h1, h2, h3⟩ := h
        subst h1
        subst h2
        obtain ⟨ih1, ih2, ih3⟩ := resolve_idem hlist hrec rest st r' s' log' hc hrest
        have hkey2 : alookup s'.tarInfos (nPath a) = some idx := by
          have hmono : alookup ((requestResourceById listing recognize resourceId
              rest st).2.1).tarInfos (nPath a) = some idx :=
            resolve_mono rest st (nPath a) idx hkey
          rw [hrest] at hmono
          exact hmono
        have hmk2 := makeTarInfo_cached listing recognize hkey2
        simp only [requestResourceById, hmk2, hlook, List.nil_append]
        exact ⟨ih1, ih2, ih3⟩
    | none =>
      cases hl : listing a with
      | error e =>
        have hmk := makeTarInfo_uncached_err listing recognize hkey hl
        have hcase : e = .entryNotFound ∨ e = .repoNotFound ∨ ∃ msg, e = .other msg := by
          cases e with
          | entryNotFound => exact Or.inl rfl
          | repoNotFound => exact Or.inr (Or.inl rfl)
          | other msg => exact Or.inr (Or.inr ⟨msg, rfl⟩)
        rcases hcase with rfl | rfl | ⟨msg, rfl⟩
        · rcases hrest : requestResourceById listing recognize resourceId rest st
            with ⟨r', s', log'⟩
          simp only [requestResourceById, hmk, hrest, Prod.mk.injEq] at h
          obtain ⟨h1, h2, h3⟩ := h
          subst h1
          subst h2
          obtain ⟨ih1, ih2, ih3⟩ := resolve_idem hlist hrec rest st r' s' log' hc hrest
          have hcS : Consistent listing recognize s' := by
            have hcons : Consistent listing recognize
                ((requestResourceById listing recognize resourceId rest st).2.1) :=
              resolve_consistent hlist hrec rest st hc
            rw [hrest] at hcons
            exact hcons
          have hkeyS : alookup s'.tarInfos (nPath a) = none :=
            uncached_of_listing_error hcS hl
          have hmk2 := makeTarInfo_uncached_err listing recognize hkeyS hl
          simp only [requestResourceById, hmk2]
          refine ⟨ih1, ih2, ?_⟩
          intro t ht
          simp at ht
          rcases ht with rfl | ht
          · exact hkeyS
          · exact ih3 t ht
        · rcases hrest : requestResourceById listing recognize resourceId rest st
            with ⟨r', s', log'⟩
          simp only [requestResourceById, hmk, hrest, Prod.mk.injEq] at h
          obtain ⟨h1, h2, h3⟩ := h
          subst h1
          subst h2
          obtain ⟨ih1, ih2, ih3⟩ := resolve_idem hlist hrec rest st r' s' log' hc hrest
          have hcS : Consistent listing recognize s' := by
            have hcons : Consistent listing recognize
                ((requestResourceById listing recognize resourceId rest st).2.1) :=
              resolve_consistent hlist hrec rest st hc
            rw [hrest] at hcons
            exact hcons
          have hkeyS : alookup s'.tarInfos (nPath a) = none :=
            uncached_of_listing_error hcS hl
          have hmk2 := makeTarInfo_uncached_err listing recognize hkeyS hl
          simp only [requestResourceById, hmk2]
          refine ⟨ih1, ih2, ?_⟩
          intro t ht
          simp at ht
          rcases ht with rfl | ht
          · exact hkeyS
          · exact ih3 t ht
        · simp only [requestResourceById, hmk, Prod.mk.injEq] at h
          obtain ⟨h1, h2, h3⟩ := h
          subst h1
          subst h2
          have hmk2 := makeTarInfo_uncached_err listing recognize hkey hl
          simp [requestResourceById, hmk2, hkey]
      | ok fs =>
        have hmk := makeTarInfo_uncached_ok listing recognize hkey hl
        cases hlook : alookup (buildIndex recognize a fs) resourceId with
        | some files =>
          simp only [requestResourceById, hmk, hlook, Prod.mk.injEq] at h
          obtain ⟨h1, h2, h3⟩ := h
          subst h1
          subst h2
          have hkey2 : alookup
              (storeKey st.tarInfos (nPath a) (buildIndex recognize a fs)) (nPath a) =
              some (buildIndex recognize a fs) := alookup_storeKey_self _ _ _
          have hmk2 : makeTarInfo listing recognize
              (⟨storeKey st.tarInfos (nPath a) (buildIndex recognize a fs)⟩ : PoolState α)
              a false =
              (.ok (buildIndex recognize a fs),
                ⟨storeKey st.tarInfos (nPath a) (buildIndex recognize a fs)⟩, false) :=
            makeTarInfo_cached listing recognize hkey2
          simp [requestResourceById, hmk2, hlook]
        | none =>
          rcases hrest : requestResourceById listing recognize resourceId rest
            ⟨storeKey st.tarInfos (nPath a) (buildIndex recognize a fs)⟩
            with ⟨r', s', log'⟩
          simp only [requestResourceById, hmk, hlook, hrest, Prod.mk.injEq] at h
          obtain ⟨h1, h2, h3⟩ := h
          subst h1
          subst h2
          have hc' := consistent_store hlist hrec hc hl
          obtain ⟨ih1, ih2, ih3⟩ := resolve_idem hlist hrec rest _ r' s' log' hc' hrest
          have hkey2 : alookup s'.tarInfos (nPath a) = some (buildIndex recognize a fs) := by
            have hmono : alookup ((requestResourceById listing recognize resourceId rest
                (⟨storeKey st.tarInfos (nPath a) (buildIndex recognize a fs)⟩ :
                  PoolState α)).2.1).tarInfos (nPath a) = some (buildIndex recognize a fs) :=
              resolve_mono rest
                ⟨storeKey st.tarInfos (nPath a) (buildIndex recognize a fs)⟩ (nPath a)
                (buildIndex recognize a fs) (alookup_storeKey_self _ _ _)
            rw [hrest] at hmono
            exact hmono
          have hmk2 := makeTarInfo_cached listing recognize hkey2
          simp only [requestResourceById, hmk2, hlook, List.nil_append]
          exact ⟨ih1, ih2, ih3⟩

end ResolverCache

/-- C1: `_request_resource_by_id` implements the specified search over the
Locator's candidates, starting from a fresh cache.  (i) If every earlier
candidate was skipped (listing failed with entry/repository-not-found) or
listed-but-absent, and candidate `a`'s index contains the id with files
`files`, the resolver returns one `DataLocation` per matching path and the
later candidates are irrelevant; (ii) under the same clean prefix, a hard
listing error propagates as a transport error; (iii) when no candidate
hard-errors, the resolver raises `ResourceNotFound` exactly when no
candidate's index contains the id.  The hypotheses state that the remote
listing and the recognizer depend only on the normalized tar path, which is
what keying the cache by `_n_path` presumes. -/
theorem c1_resolver_search {α : Type} [DecidableEq α]
    (listing : String → Except LErr (List String))
    (recognize : String → String → Option α) (resourceId : α) (archives : List String)
    (hlist : ∀ a b, nPath a = nPath b → listing a = listing b)
    (hrec : ∀ a b, nPath a = nPath b → ∀ f, recognize a f = recognize b f) :
    (∀ pre a post files, archives = pre ++ a :: post →
        (∀ b ∈ pre, shardOutcome listing recognize resourceId b = .skip ∨
          shardOutcome listing recognize resourceId b = .absent) →
        shardOutcome listing recognize resourceId a = .found files →
        (requestResourceById listing recognize resourceId archives ⟨[]⟩).1 =
          .ok (files.map fun f => DataLocation.mk resourceId a f)) ∧
    (∀ pre a post e, archives = pre ++ a :: post →
        (∀ b ∈ pre, shardOutcome listing recognize resourceId b = .skip ∨
          shardOutcome listing recognize resourceId b = .absent) →
        shardOutcome listing recognize resourceId a = .hard e →
        (requestResourceById listing recognize resourceId archives ⟨[]⟩).1 =
          .error (.transport e)) ∧
    ((∀ a ∈ archives, ∀ e, shardOutcome listing recognize resourceId a ≠ .hard e) →
      ((requestResourceById listing recognize resourceId archives ⟨[]⟩).1 =
          .error .resourceNotFound ↔
        ∀ a ∈ archives, ∀ files,
          shardOutcome listing recognize resourceId a ≠ .found files)) := by
  have hspec : (requestResourceById listing recognize resourceId archives
      (⟨[]⟩ : PoolState α)).1 = specSearch listing recognize resourceId archives :=
    resolve_fst_eq_spec hlist hrec archives ⟨[]⟩ consistent_empty
  refine ⟨?_, ?_, ?_⟩
  · intro pre a post files hsplit hpre hfound
    rw [hspec, hsplit, specSearch_prefix pre _ hpre]
    simp only [specSearch, hfound]
  · intro pre a post e hsplit hpre hhard
    rw [hspec, hsplit, specSearch_prefix pre _ hpre]
    simp only [specSearch, hhard]
  · intro hnohard
    rw [hspec, specSearch_rnf_iff]
    constructor
    · intro h a ha files hfound
      rcases h a ha with hh | hh <;> rw [hfound] at hh <;> cases hh
    · intro h a ha
      cases hout : shardOutcome listing recognize resourceId a with
      | skip => exact Or.inl rfl
      | absent => exact Or.inr rfl
      | hard e => exact absurd hout (hnohard a ha e)
      | found files => exact absurd hout (h a ha files)

/-- Witness for C1: a concrete pool whose single candidate shard lists
successfully but does not contain the id resolves to `ResourceNotFound`. -/
theorem c1_resolver_search_witness :
    (requestResourceById (fun _ => Except.ok ([] : List String))
        (fun _ _ => (none : Option Nat)) (0 : Nat) ["a"] ⟨[]⟩).1 =
      .error .resourceNotFound := by
  have h := c1_resolver_search (fun _ => Except.ok ([] : List String))
    (fun _ _ => (none : Option Nat)) 0 ["a"]
    (fun _ _ _ => rfl) (fun _ _ _ _ => rfl)
  have hout : shardOutcome (fun _ => Except.ok ([] : List String))
      (fun _ _ => (none : Option Nat)) (0 : Nat) "a" = .absent := rfl
  refine (h.2.2 ?_).mpr ?_
  · intro a ha e
    have ha' : a = "a" := by simpa using ha
    subst ha'
    rw [hout]
    intro hc
    cases hc
  · intro a ha files
    have ha' : a = "a" := by simpa using ha
    subst ha'
    rw [hout]
    intro hc
    cases hc

/-- C7: calling the resolver a second time for the same id on the same pool
instance returns the same `DataLocation` result, leaves the per-instance
shard index (`_tar_infos`) unchanged, and performs remote listings only for
tar paths whose normalized key is still uncached — in particular no second
remote listing of an already-indexed shard.  The hypotheses state that the
remote listing and the recognizer depend only on the normalized tar path
(the assumption built into keying the cache by `_n_path`). -/
theorem c7_resolve_cached {α : Type} [DecidableEq α]
    (listing : String → Except LErr (List String))
    (recognize : String → String → Option α) (resourceId : α) (archives : List String)
    (hlist : ∀ a b, nPath a = nPath b → listing a = listing b)
    (hrec : ∀ a b, nPath a = nPath b → ∀ f, recognize a f = recognize b f) :
    (requestResourceById listing recognize resourceId archives
        ((requestResourceById listing recognize resourceId archives ⟨[]⟩).2.1)).1 =
      (requestResourceById listing recognize resourceId archives ⟨[]⟩).1 ∧
    (requestResourceById listing recognize resourceId archives
        ((requestResourceById listing recognize resourceId archives ⟨[]⟩).2.1)).2.1 =
      (requestResourceById listing recognize resourceId archives ⟨[]⟩).2.1 ∧
    ∀ t ∈ (requestResourceById listing recognize resourceId archives
        ((requestResourceById listing recognize resourceId archives ⟨[]⟩).2.1)).2.2,
      alookup ((requestResourceById listing recognize resourceId archives
        ⟨[]⟩).2.1).tarInfos (nPath t) = none := by
  rcases hdef : requestResourceById listing recognize resourceId archives ⟨[]⟩
    with ⟨r, s1, log⟩
  exact resolve_idem hlist hrec archives ⟨[]⟩ r s1 log consistent_empty hdef

/-- Witness for C7: the concrete single-shard pool of the C1 witness. -/
theorem c7_resolve_cached_witness :
    (requestResourceById (fun _ => Except.ok ([] : List String))
        (fun _ _ => (none : Option Nat)) (0 : Nat) ["a"]
        ((requestResourceById (fun _ => Except.ok ([] : List String))
          (fun _ _ => (none : Option Nat)) (0 : Nat) ["a"] ⟨[]⟩).2.1)).1 =
      (requestResourceById (fun _ => Except.ok ([] : List String))
        (fun _ _ => (none : Option Nat)) (0 : Nat) ["a"] ⟨[]⟩).1 :=
  (c7_resolve_cached (fun _ => Except.ok ([] : List String))
    (fun _ _ => (none : Option Nat)) 0 ["a"]
    (fun _ _ _ => rfl) (fun _ _ _ _ => rfl)).1

/-- C6: the scratch directory created by `mock_resource` is gone when the
scope exits, on every exit path — the oracles `listing`, `download` and
`block` are universally quantified, so the conclusion covers normal
completion, a `ResourceNotFound` (or transport) resolution failure, a
download error, and an exception raised by the caller's block — and the
body's outcome (success or exception) passes through the scope unchanged.
The freshness hypothesis says the directory-name counter has not yet been
used. -/
theorem c6_mock_resource_cleanup {α : Type} [DecidableEq α]
    (listing : String → Except LErr (List String))
    (recognize : String → String → Option α) (resourceId : α) (archives : List String)
    (pst : PoolState α) (download : DataLocation α → Except String Unit)
    (block : Nat → Except String Unit) (st : FsState)
    (hfresh : ∀ d ∈ st.tempDirs, d < st.counter) :
    (mockResource listing recognize resourceId archives pst download block st).2.tempDirs =
      st.tempDirs ∧
    st.counter ∉
      (mockResource listing recognize resourceId archives pst download block st).2.tempDirs ∧
    (mockResource listing recognize resourceId archives pst download block st).1 =
      (match (requestResourceById listing recognize resourceId archives pst).1 with
        | .error e => .error (.pool e)
        | .ok locations =>
          match runDownloads download locations with
          | .error m => .error (.download m)
          | .ok _ =>
            match block st.counter with
            | .error m => .error (.caller m)
            | .ok _ => .ok ()) := by
  have hfilter : (st.tempDirs ++ [st.counter]).filter (fun x => !(x == st.counter)) =
      st.tempDirs := by
    rw [List.filter_append]
    have h1 : st.tempDirs.filter (fun x => !(x == st.counter)) = st.tempDirs := by
      apply List.filter_eq_self.mpr
      intro d hd
      simp [Nat.ne_of_lt (hfresh d hd)]
    have h2 : [st.counter].filter (fun x => !(x == st.counter)) = [] := by simp
    rw [h1, h2, List.append_nil]
  refine ⟨?_, ?_, rfl⟩
  · exact hfilter
  · show st.counter ∉ (st.tempDirs ++ [st.counter]).filter (fun x => !(x == st.counter))
    rw [hfilter]
    intro hmem
    exact absurd (hfresh _ hmem) (by omega)

/-- Witness for C6: a pool whose only shard is missing, with a caller block
that raises; the scratch directory list is empty again afterwards. -/
theorem c6_mock_resource_cleanup_witness :
    (mockResource (fun _ => Except.error LErr.entryNotFound)
        (fun _ _ => (none : Option Nat)) (0 : Nat) ["a"] ⟨[]⟩
        (fun _ => Except.ok ()) (fun _ => Except.error "boom")
        ⟨[], 0⟩).2.tempDirs = [] ∧
      (0 : Nat) ∉ (mockResource (fun _ => Except.error LErr.entryNotFound)
        (fun _ _ => (none : Option Nat)) (0 : Nat) ["a"] ⟨[]⟩
        (fun _ => Except.ok ()) (fun _ => Except.error "boom")
        ⟨[], 0⟩).2.tempDirs := by
  have h := c6_mock_resource_cleanup (fun _ => Except.error LErr.entryNotFound)
    (fun _ _ => (none : Option Nat)) (0 : Nat) ["a"] ⟨[]⟩
    (fun _ => Except.ok ()) (fun _ => Except.error "boom")
    ⟨[], 0⟩ (by intro d hd; cases hd)
  exact ⟨h.1, h.2.1⟩

/-! ## Lemmas about the pipeline iterator -/

section PipeIter

variable {ι δ μ : Type}

/-- Characterization of the iterator loop: the input splits into the
consumed prefix and the unconsumed suffix; the yielded envelopes are
exactly the `PipeItem`s of the consumed prefix (error envelopes are pulled
and discarded); the final `_current_count` grew by exactly the number of
yielded items. -/
theorem pipeIterLoop_spec (maxCount : Option Nat) :
    ∀ (q : List (PEnvelope ι δ μ)) (cnt : Nat),
      ∃ pre, q = pre ++ (pipeIterLoop maxCount cnt q).2.2.2 ∧
        (pipeIterLoop maxCount cnt q).1 = pre.filter (fun e => e.isItem) ∧
        (pipeIterLoop maxCount cnt q).2.1 = cnt + (pipeIterLoop maxCount cnt q).1.length
  | [], cnt => ⟨[], by simp [pipeIterLoop]⟩
  | e :: rest, cnt => by
    cases e with
    | error err =>
      obtain ⟨pre, hsplit, hfilter, hcount⟩ := pipeIterLoop_spec maxCount rest cnt
      refine ⟨.error err :: pre, ?_, ?_, ?_⟩
      · simp only [pipeIterLoop, List.cons_append]
        rw [← hsplit]
      · simp only [pipeIterLoop, List.filter_cons]
        simpa [PEnvelope.isItem] using hfilter
      · simpa [pipeIterLoop] using hcount
    | item it =>
      by_cases hreach : maxReached maxCount (cnt + 1) = true
      · refine ⟨[.item it], ?_, ?_, ?_⟩
        · simp [pipeIterLoop, hreach]
        · simp [pipeIterLoop, hreach, PEnvelope.isItem]
        · simp [pipeIterLoop, hreach]
      · rw [Bool.not_eq_true] at hreach
        obtain ⟨pre, hsplit, hfilter, hcount⟩ := pipeIterLoop_spec maxCount rest (cnt + 1)
        refine ⟨.item it :: pre, ?_, ?_, ?_⟩
        · simp only [pipeIterLoop, hreach, Bool.false_eq_true, if_false, List.cons_append]
          rw [← hsplit]
        · simp only [pipeIterLoop, hreach, Bool.false_eq_true, if_false, List.filter_cons]
          simpa [PEnvelope.isItem] using hfilter
        · simp only [pipeIterLoop, hreach, Bool.false_eq_true, if_false,
            List.length_cons]
          omega

/-- When at least `N - cnt` more items are available, the loop with limit
`N` yields exactly `N - cnt` items, ends with `_current_count = N`, sets the
stop signal, and stops right after the item that reached the limit. -/
theorem pipeIterLoop_exact (N : Nat) :
    ∀ (q : List (PEnvelope ι δ μ)) (cnt : Nat), cnt < N → N - cnt ≤ countItems q →
      (pipeIterLoop (some N) cnt q).1.length = N - cnt ∧
      (pipeIterLoop (some N) cnt q).2.1 = N ∧
      (pipeIterLoop (some N) cnt q).2.2.1 = true ∧
      ∃ pre it, q = (pre ++ [PEnvelope.item it]) ++ (pipeIterLoop (some N) cnt q).2.2.2 ∧
        countItems (pre ++ [PEnvelope.item it]) = N - cnt
  | [], cnt, hlt, hle => by
    simp [countItems] at hle
    omega
  | e :: rest, cnt, hlt, hle => by
    cases e with
    | error err =>
      have hle' : N - cnt ≤ countItems rest := by
        simpa [countItems, PEnvelope.isItem] using hle
      obtain ⟨h1, h2, h3, pre, it, hsplit, hcnt⟩ :=
        pipeIterLoop_exact N rest cnt hlt hle'
      refine ⟨?_, ?_, ?_, .error err :: pre, it, ?_, ?_⟩
      · simpa [pipeIterLoop] using h1
      · simpa [pipeIterLoop] using h2
      · simpa [pipeIterLoop] using h3
      · simp only [pipeIterLoop, List.cons_append]
        exact congrArg (PEnvelope.error err :: ·) hsplit
      · simpa [countItems, PEnvelope.isItem] using hcnt
    | item it =>
      by_cases hreach : N ≤ cnt + 1
      · have hN : N = cnt + 1 := by omega
        subst hN
        have hreach' : maxReached (some (cnt + 1)) (cnt + 1) = true := by
          simp [maxReached]
        refine ⟨?_, ?_, ?_, [], it, ?_, ?_⟩
        · simp [pipeIterLoop, hreach']
        · simp [pipeIterLoop, hreach']
        · simp [pipeIterLoop, hreach']
        · simp [pipeIterLoop, hreach']
        · simp [countItems, PEnvelope.isItem]
      · have hreach' : maxReached (some N) (cnt + 1) = false := by
          simp [maxReached]
          omega
        have hlt' : cnt + 1 < N := by omega
        have hle' : N - (cnt + 1) ≤ countItems rest := by
          have hitem : countItems (PEnvelope.item it :: rest) = countItems rest + 1 := by
            simp [countItems, PEnvelope.isItem]
          rw [hitem] at hle
          omega
        obtain ⟨h1, h2, h3, pre, it', hsplit, hcnt⟩ :=
          pipeIterLoop_exact N rest (cnt + 1) hlt' hle'
        refine ⟨?_, ?_, ?_, .item it :: pre, it', ?_, ?_⟩
        · simp only [pipeIterLoop, hreach', Bool.false_eq_true, if_false, List.length_cons]
          omega
        · simpa [pipeIterLoop, hreach'] using h2
        · simpa [pipeIterLoop, hreach'] using h3
        · simp only [pipeIterLoop, hreach', Bool.false_eq_true, if_false, List.cons_append]
          exact congrArg (PEnvelope.item it :: ·) hsplit
        · have hcons : countItems (PEnvelope.item it :: (pre ++ [PEnvelope.item it'])) =
              countItems (pre ++ [PEnvelope.item it']) + 1 := by
            simp [countItems, PEnvelope.isItem]
          rw [List.cons_append, hcons, hcnt]
          omega

end PipeIter

/-- C4: with `max_count = N` and at least `N` retrievable inputs (item
envelopes) in the queue stream, iterating a fresh session yields exactly
`N` envelopes, all of them `PipeItem`s; only items advance
`_current_count` (it ends at `N` even though the consumed prefix may
contain error envelopes); the stop signal is set by the cutoff; and the
consumed prefix ends at the `N`-th item, leaving the remaining input
unconsumed. -/
theorem c4_session_max_count {ι δ μ : Type} (N : Nat) (q : List (PEnvelope ι δ μ))
    (h : N ≤ countItems q) :
    (pipeIterate (some N) q).1.length = N ∧
    (∀ y ∈ (pipeIterate (some N) q).1, y.isItem = true) ∧
    (pipeIterate (some N) q).2.1 = N ∧
    (pipeIterate (some N) q).2.2.1 = true ∧
    ∃ pre, q = pre ++ (pipeIterate (some N) q).2.2.2 ∧ countItems pre = N := by
  cases N with
  | zero =>
    have hreach : maxReached (some 0) 0 = true := by simp [maxReached]
    have hpi : pipeIterate (some 0) q = ([], 0, true, q) := by simp [pipeIterate, hreach]
    rw [hpi]
    exact ⟨rfl, by simp, rfl, rfl, [], by simp, by simp [countItems]⟩
  | succ n =>
    have hreach : maxReached (some (n + 1)) 0 = false := by simp [maxReached]
    have hpi : pipeIterate (some (n + 1)) q = pipeIterLoop (some (n + 1)) 0 q := by
      simp [pipeIterate, hreach]
    rw [hpi]
    obtain ⟨h1, h2, h3, pre, it, hsplit, hcnt⟩ :=
      pipeIterLoop_exact (n + 1) q 0 (by omega) (by simpa using h)
    obtain ⟨pre2, hsplit2, hfilter2, hcount2⟩ := pipeIterLoop_spec (some (n + 1)) q 0
    refine ⟨by simpa using h1, ?_, by simpa using h2, h3,
      pre ++ [PEnvelope.item it], hsplit, by simpa using hcnt⟩
    intro y hy
    rw [hfilter2] at hy
    exact List.of_mem_filter hy

/-- Witness for C4: one error envelope followed by two item envelopes,
`max_count = 1`: exactly one envelope is yielded. -/
theorem c4_session_max_count_witness :
    (pipeIterate (some 1)
      [PEnvelope.error (⟨0, PExc.resourceNotFound, 0, none⟩ : PipeError Nat Nat),
       PEnvelope.item (⟨1, 10, 1, none⟩ : PipeItem Nat Nat Nat),
       PEnvelope.item (⟨2, 20, 2, none⟩ : PipeItem Nat Nat Nat)]).1.length = 1 := by
  have h := c4_session_max_count 1
    [PEnvelope.error (⟨0, PExc.resourceNotFound, 0, none⟩ : PipeError Nat Nat),
     PEnvelope.item (⟨1, 10, 1, none⟩ : PipeItem Nat Nat Nat),
     PEnvelope.item (⟨2, 20, 2, none⟩ : PipeItem Nat Nat Nat)] (by decide)
  exact h.1

/-- C10: iterating a `PipeSession` yields only `PipeItem` envelopes: every
`PipeError` pulled during iteration is discarded — not yielded, not counted
(`_current_count` equals the number of yielded items), and not retained
anywhere in the iteration's output; whereas `Session.next` returns the head
envelope of the queue as-is, `PipeError` included, so errors are observable
only through `next`. -/
theorem c10_iter_discards_errors {ι δ μ : Type} (maxCount : Option Nat)
    (q : List (PEnvelope ι δ μ)) :
    (∀ y ∈ (pipeIterate maxCount q).1, y.isItem = true) ∧
    (∃ pre, q = pre ++ (pipeIterate maxCount q).2.2.2 ∧
      (pipeIterate maxCount q).1 = pre.filter (fun e => e.isItem) ∧
      (pipeIterate maxCount q).2.1 = (pipeIterate maxCount q).1.length) ∧
    (∀ (e : PEnvelope ι δ μ) (rest : List (PEnvelope ι δ μ)),
      pipeNext (e :: rest) = some (e, rest)) := by
  by_cases h0 : maxReached maxCount 0 = true
  · have hpi : pipeIterate maxCount q = ([], 0, true, q) := by simp [pipeIterate, h0]
    rw [hpi]
    exact ⟨by simp, ⟨[], by simp, by simp, by simp⟩, fun e rest => rfl⟩
  · rw [Bool.not_eq_true] at h0
    have hpi : pipeIterate maxCount q = pipeIterLoop maxCount 0 q := by
      simp [pipeIterate, h0]
    rw [hpi]
    obtain ⟨pre, hsplit, hfilter, hcount⟩ := pipeIterLoop_spec maxCount q 0
    refine ⟨?_, ⟨pre, hsplit, hfilter, by simpa using hcount⟩, fun e rest => rfl⟩
    intro y hy
    rw [hfilter] at hy
    exact List.of_mem_filter hy

/-- Witness for C10: `Session.next` hands back an error envelope as-is. -/
theorem c10_iter_discards_errors_witness :
    pipeNext [PEnvelope.error (⟨0, PExc.resourceNotFound, 0, none⟩ : PipeError Nat Nat)] =
      some (PEnvelope.error (⟨0, PExc.resourceNotFound, 0, none⟩ : PipeError Nat Nat),
        ([] : List (PEnvelope Nat Nat Nat))) :=
  (c10_iter_discards_errors none []).2.2 _ _

/-- C5: a single item's failure never aborts the run.  In
`batch_download_to_directory._func`, every outcome of the item body —
success, `ResourceNotFoundError`, or any other exception — results in a
normal return (the propagation channel is always `.ok`, with the not-found
and other failures logged and skipped).  In `Pipe.batch_retrieve._func`,
the worker always returns normally, and a failed retrieval is delivered as
data: the envelope handed to the queue loop is exactly the `PipeError`
carrying the captured exception, a successful one exactly the `PipeItem` —
never an exception raised into the pool or the consumer. -/
theorem c5_failure_isolation {τ ι δ μ : Type} :
    (∀ (isCompleted : Bool) (attempt : Except PExc τ),
      ∃ logv, batchFunc isCompleted attempt = .ok logv) ∧
    (∀ (stopped : Bool) (orderId : Nat) (resourceId : ι) (metainfo : Option μ)
        (r : Except PExc δ) (trace : List (Bool × Bool)),
      ∃ w, pipeWorkerFunc stopped orderId resourceId metainfo r trace = .ok w) ∧
    (∀ (orderId : Nat) (resourceId : ι) (metainfo : Option μ) (e : PExc)
        (trace : List (Bool × Bool)),
      pipeWorkerFunc false orderId resourceId metainfo
          ((Except.error e : Except PExc δ)) trace =
        .ok (.completed (.error ⟨resourceId, e, orderId, metainfo⟩) (putLoop trace))) ∧
    (∀ (orderId : Nat) (resourceId : ι) (metainfo : Option μ) (d : δ)
        (trace : List (Bool × Bool)),
      pipeWorkerFunc false orderId resourceId metainfo (.ok d) trace =
        .ok (.completed (.item ⟨resourceId, d, orderId, metainfo⟩) (putLoop trace))) := by
  refine ⟨?_, ?_, ?_, ?_⟩
  · intro isCompleted attempt
    cases isCompleted
    · cases attempt with
      | ok t => exact ⟨_, rfl⟩
      | error e => cases e <;> exact ⟨_, rfl⟩
    · exact ⟨_, rfl⟩
  · intro stopped orderId resourceId metainfo r trace
    cases stopped
    · cases r with
      | ok d => exact ⟨_, rfl⟩
      | error e => cases e <;> exact ⟨_, rfl⟩
    · exact ⟨_, rfl⟩
  · intro orderId resourceId metainfo e trace
    cases e <;> rfl
  · intro orderId resourceId metainfo d trace
    rfl

/-- C8, behavior at the failing input (resource `1` with two files, non-null
metainfo, `save_metainfo=True`, formatted sidecar name
`1_metainfo.json`): the copy loop writes the metainfo file under the
scratch directory `td` — once per copied file, twice here — and the
destination directory receives only the two copied files, never the
sidecar.  (The scratch directory is deleted when `mock_resource` exits, so
the sidecar is lost entirely.) -/
theorem c8_metainfo_sidecar_behavior :
    batchCopyBody true (some (0 : Nat)) "1_metainfo.json" ["1.png", "1.json"] =
      { dstWrites := ["1.png", "1.json"],
        scratchWrites := ["1_metainfo.json", "1_metainfo.json"] } ∧
    "1_metainfo.json" ∉
      (batchCopyBody true (some (0 : Nat)) "1_metainfo.json"
        ["1.png", "1.json"]).dstWrites := by
  constructor
  · decide
  · decide

/-- C9 counterexample: an interleaving of two concurrent `resolve` calls on
one uncached shard in which BOTH threads pass the uncached membership test
before either stores, so two remote listing calls are performed — refuting
"exactly one remote listing call" (there is no lock in `_make_tar_info`).
Schedule: thread 1 checks, thread 2 checks, thread 1 fetches and stores,
thread 2 fetches and stores. -/
theorem c9_race_counterexample :
    (runRace [true, false, true, true, false, false]).fetches = 2 ∧
    (runRace [true, false, true, true, false, false]).pc1.isDone = true ∧
    (runRace [true, false, true, true, false, false]).pc2.isDone = true := by
  decide

/-- One interleaving step preserves the race invariant. -/
theorem stepRace_inv (s : CacheRace) (t : Bool) (h : raceInv s) :
    raceInv (stepRace s t) := by
  obtain ⟨pc1, pc2, cached, fetches⟩ := s
  obtain ⟨h1, h2, h3, h4⟩ := h
  cases t <;> cases pc1 <;> cases pc2 <;> cases cached <;>
    simp_all [stepRace, stepThread, fetchWeight, raceInv]

/-- The race invariant holds along any schedule. -/
theorem foldl_stepRace_inv : ∀ (l : List Bool) (s : CacheRace),
    raceInv s → raceInv (l.foldl stepRace s)
  | [], _, h => h
  | t :: l, s, h => foldl_stepRace_inv l (stepRace s t) (stepRace_inv s t h)

/-- Consequences of the race invariant for any reachable state: at most
two listings, and when both threads finished the key is cached and at
least one listing happened. -/
theorem raceInv_fetch_bounds (s : CacheRace) (h : raceInv s) :
    s.fetches ≤ 2 ∧
    (s.pc1.isDone = true → s.pc2.isDone = true →
      s.cached = true ∧ 1 ≤ s.fetches) := by
  obtain ⟨s1, s2, sc, sf⟩ := s
  obtain ⟨h1, h2, h3, h4⟩ := h
  cases s1 <;> cases s2 <;> simp_all [fetchWeight, CachePC.isDone]

/-- C9 (amended): concurrent population of one shard's index entry is NOT
serialized — both callers may each perform a remote listing (see the
counterexample) — but under every interleaving at most one listing per
caller occurs (at most two in total), and once both callers have returned
the key is cached (at least one listing happened, and the last store wins
with an identical index, so subsequent lookups reuse it). -/
theorem c9_cache_population_amended (sched : List Bool) :
    (runRace sched).fetches ≤ 2 ∧
    ((runRace sched).pc1.isDone = true → (runRace sched).pc2.isDone = true →
      (runRace sched).cached = true ∧ 1 ≤ (runRace sched).fetches) := by
  have hinit : raceInv ⟨.start, .start, false, 0⟩ := by
    refine ⟨rfl, rfl, ?_, ?_⟩ <;> intro hx <;> cases hx
  exact raceInv_fetch_bounds _ (foldl_stepRace_inv sched ⟨.start, .start, false, 0⟩ hinit)

/-- Witness for C9 (amended): a schedule in which thread 1 populates the
cache and thread 2 takes the hit path; the bound and the cached-at-end
conclusion are discharged concretely. -/
theorem c9_cache_population_amended_witness :
    (runRace [true, true, true, false]).fetches ≤ 2 ∧
      (runRace [true, true, true, false]).cached = true := by
  have h := c9_cache_population_amended [true, true, true, false]
  exact ⟨h.1, (h.2 (by decide) (by decide)).1⟩
